import Mathlib

/-!
Verification of the coverflow rendering/animation engine
(`src/coverflow/utils.py`, `transforms.py`, `renderer.py`,
`video_generator.py`) against its natural-language specification.

Python floats are modelled as rational numbers; Python's `int(...)`
conversion (truncation toward zero) is `pyInt`.  The transcendental
operations that the source applies to floats (`x ** a` for non-integer
`a`, `math.log`, `math.sqrt`, `math.sin`, `math.cos`) are modelled by an
abstract bundle `RealFuns` of scalar functions, so every theorem that is
quantified over the bundle holds in particular for the true real-valued
functions.  A concrete test bundle `ratFuns` (exact at the integer
exponents where it is used) lets witnesses and counterexamples evaluate.
-/

namespace Coverflow

/-- Python's `int(x)` on a rational: truncation toward zero.
For a reduced rational `num/den` (with `den > 0`) this is `num.tdiv den`. -/
def pyInt (q : ℚ) : ℤ := q.num.tdiv q.den

/-- Modelled from the spec: "rounding to the nearest integer" (claim C3's
`round`), realised as `⌊q + 1/2⌋`.  This definition follows the spec's
words; the source code (`video_generator.py:161-164`) uses `int(...)`
instead. -/
def roundNearest (q : ℚ) : ℤ := ⌊q + 1/2⌋

/-- Abstract bundle of the transcendental scalar functions used by the
source on Python floats.  `pw x a` models `x ** a`; `log2 x` models
`math.log x / math.log 2`; `sqrtq x` models `math.sqrt x`;
`cosPiHalf t`, `sinPiHalf t`, `cosPi t` model `cos(π·t/2)`, `sin(π·t/2)`,
`cos(π·t)`. -/
structure RealFuns where
  pw : ℚ → ℚ → ℚ
  log2 : ℚ → ℚ
  sqrtq : ℚ → ℚ
  cosPiHalf : ℚ → ℚ
  sinPiHalf : ℚ → ℚ
  cosPi : ℚ → ℚ

/-- Concrete test bundle: `pw x a = x ^ a.num.toNat`, which agrees with the
real power exactly when `a` is a non-negative integer (the only exponents at
which closed theorems below evaluate it); the transcendental slots are
placeholders that no closed theorem depends on. -/
def ratFuns : RealFuns where
  pw x a := x ^ a.num.toNat
  log2 _ := 0
  sqrtq _ := 0
  cosPiHalf _ := 0
  sinPiHalf _ := 0
  cosPi _ := 0

/-! ## Curve library (`src/coverflow/utils.py`)

The source keeps dictionaries mapping names to function objects; the model
keeps association lists mapping the same names to tags of closed
enumerations, with separate evaluation functions (this is the same
name-keyed dispatch, with the function objects identified by tag). -/

/-- The ten easing functions of `EASING_FUNCTIONS` in `utils.py`. -/
inductive EasingTag where
  | linear | easeInQuad | easeOutQuad | easeInOutQuad
  | easeInCubic | easeOutCubic | easeInOutCubic
  | easeInSine | easeOutSine | easeInOutSine
  deriving DecidableEq

/-- `EASING_FUNCTIONS` dictionary of `utils.py` (name → function), in
source order. -/
def EASING_FUNCTIONS : List (String × EasingTag) :=
  [("linear", .linear),
   ("ease_in_quad", .easeInQuad),
   ("ease_out_quad", .easeOutQuad),
   ("ease_in_out_quad", .easeInOutQuad),
   ("ease_in_cubic", .easeInCubic),
   ("ease_out_cubic", .easeOutCubic),
   ("ease_in_out_cubic", .easeInOutCubic),
   ("ease_in_sine", .easeInSine),
   ("ease_out_sine", .easeOutSine),
   ("ease_in_out_sine", .easeInOutSine)]

/-- `get_easing_function` of `utils.py`: dictionary `.get` with default
`ease_in_out_cubic`. -/
def get_easing_function (name : String) : EasingTag :=
  ((EASING_FUNCTIONS.lookup name).getD .easeInOutCubic)

/-- Evaluation of an easing function (formulas of `utils.py` lines 7-57). -/
def evalEasing (F : RealFuns) : EasingTag → ℚ → ℚ
  | .linear, t => t
  | .easeInQuad, t => t * t
  | .easeOutQuad, t => 1 - (1 - t) ^ 2
  | .easeInOutQuad, t => if t < 1/2 then 2 * t * t else 1 - (-2 * t + 2) ^ 2 / 2
  | .easeInCubic, t => t ^ 3
  | .easeOutCubic, t => 1 - (1 - t) ^ 3
  | .easeInOutCubic, t => if t < 1/2 then 4 * t * t * t else 1 - (-2 * t + 2) ^ 3 / 2
  | .easeInSine, t => 1 - F.cosPiHalf t
  | .easeOutSine, t => F.sinPiHalf t
  | .easeInOutSine, t => -(F.cosPi t - 1) / 2

/-- The five decay curves of `DECAY_CURVE_FUNCTIONS` in `utils.py`. -/
inductive DecayTag where
  | linear | exponential | logarithmic | quadratic | sqrt
  deriving DecidableEq

/-- The five increase curves of `INCREASE_CURVE_FUNCTIONS` in `utils.py`. -/
inductive IncreaseTag where
  | linear | exponential | logarithmic | quadratic | sqrt
  deriving DecidableEq

/-- `decay_linear` of `utils.py`. -/
def decay_linear (value angle : ℚ) : ℚ := 1 - (1 - value) * angle

/-- `decay_exponential` of `utils.py`:
`value ** angle if value > 0 else 1.0`. -/
def decay_exponential (F : RealFuns) (value angle : ℚ) : ℚ :=
  if value > 0 then F.pw value angle else 1

/-- `decay_logarithmic` of `utils.py`. -/
def decay_logarithmic (F : RealFuns) (value angle : ℚ) : ℚ :=
  if angle ≤ 0 then 1
  else if value > 0 then F.pw value (F.log2 (1 + angle)) else 1

/-- `decay_quadratic` of `utils.py`. -/
def decay_quadratic (F : RealFuns) (value angle : ℚ) : ℚ :=
  if value > 0 then F.pw value (angle * angle) else 1

/-- `decay_sqrt` of `utils.py`. -/
def decay_sqrt (F : RealFuns) (value angle : ℚ) : ℚ :=
  if value > 0 ∧ angle ≥ 0 then F.pw value (F.sqrtq angle) else 1

/-- `increase_linear` of `utils.py`. -/
def increase_linear (value angle : ℚ) : ℚ := value * angle

/-- `increase_exponential` of `utils.py`. -/
def increase_exponential (F : RealFuns) (value angle : ℚ) : ℚ :=
  if angle ≤ 0 then 0 else value * (F.pw 2 angle - 1)

/-- `increase_logarithmic` of `utils.py`. -/
def increase_logarithmic (F : RealFuns) (value angle : ℚ) : ℚ :=
  if angle ≤ 0 then 0 else value * F.log2 (1 + angle)

/-- `increase_quadratic` of `utils.py`. -/
def increase_quadratic (value angle : ℚ) : ℚ := value * angle * angle

/-- `increase_sqrt` of `utils.py`. -/
def increase_sqrt (F : RealFuns) (value angle : ℚ) : ℚ :=
  if angle ≥ 0 then value * F.sqrtq angle else 0

/-- `DECAY_CURVE_FUNCTIONS` dictionary of `utils.py`. -/
def DECAY_CURVE_FUNCTIONS : List (String × DecayTag) :=
  [("linear", .linear), ("exponential", .exponential),
   ("logarithmic", .logarithmic), ("quadratic", .quadratic),
   ("sqrt", .sqrt)]

/-- `INCREASE_CURVE_FUNCTIONS` dictionary of `utils.py`. -/
def INCREASE_CURVE_FUNCTIONS : List (String × IncreaseTag) :=
  [("linear", .linear), ("exponential", .exponential),
   ("logarithmic", .logarithmic), ("quadratic", .quadratic),
   ("sqrt", .sqrt)]

/-- Evaluation of a decay curve tag. -/
def evalDecay (F : RealFuns) : DecayTag → ℚ → ℚ → ℚ
  | .linear, v, a => decay_linear v a
  | .exponential, v, a => decay_exponential F v a
  | .logarithmic, v, a => decay_logarithmic F v a
  | .quadratic, v, a => decay_quadratic F v a
  | .sqrt, v, a => decay_sqrt F v a

/-- Evaluation of an increase curve tag. -/
def evalIncrease (F : RealFuns) : IncreaseTag → ℚ → ℚ → ℚ
  | .linear, v, a => increase_linear v a
  | .exponential, v, a => increase_exponential F v a
  | .logarithmic, v, a => increase_logarithmic F v a
  | .quadratic, v, a => increase_quadratic v a
  | .sqrt, v, a => increase_sqrt F v a

/-- `apply_decay_curve` of `utils.py`: dictionary `.get` with default
`decay_exponential`, then apply. -/
def apply_decay_curve (F : RealFuns) (value angle : ℚ) (curve_name : String) : ℚ :=
  evalDecay F ((DECAY_CURVE_FUNCTIONS.lookup curve_name).getD .exponential) value angle

/-- `apply_increase_curve` of `utils.py`: dictionary `.get` with default
`increase_linear`, then apply. -/
def apply_increase_curve (F : RealFuns) (value angle : ℚ) (curve_name : String) : ℚ :=
  evalIncrease F ((INCREASE_CURVE_FUNCTIONS.lookup curve_name).getD .linear) value angle

/-! ## Per-image transform (`src/coverflow/transforms.py`)

`ImageTransformer.apply_perspective` is modelled at the level of its
observable geometry: the result is the transformed image's descriptor
(dimensions, whether the quadrilateral warp was applied and with which
insets, the blur kernel actually applied, the alpha multiplier) together
with the `(x, y)` canvas offsets, or `none` in the degenerate case. -/

/-- Descriptor of the image returned by `apply_perspective`. -/
structure TransformOut where
  width : ℕ
  height : ℕ
  warped : Bool
  hInset : ℤ
  vInset : ℤ
  blurKsize : ℤ
  alphaFactor : ℚ
  deriving DecidableEq

/-- `position_scale` of `transforms.py:76`:
`side_scale ** abs_angle if side_scale > 0 else 1.0`. -/
def positionScale (F : RealFuns) (side_scale abs_angle : ℚ) : ℚ :=
  if side_scale > 0 then F.pw side_scale abs_angle else 1

/-- `scale` of `transforms.py:82` (visual scale): the selected decay curve
over `side_scale` at the effective scale angle, or `1.0` when
`side_scale ≤ 0`. -/
def visualScale (F : RealFuns) (side_scale effective_scale_angle : ℚ)
    (side_scale_curve : String) : ℚ :=
  if side_scale > 0 then
    apply_decay_curve F side_scale effective_scale_angle side_scale_curve
  else 1

/-- `ImageTransformer.apply_perspective` of `transforms.py:38-200`.
`imgW`/`imgH` are the input image's pixel dimensions (`img.shape`). -/
def apply_perspective (F : RealFuns) (imgW imgH : ℕ) (angle : ℚ)
    (canvas_width canvas_height : ℕ)
    (perspective side_scale spacing : ℚ) (mode : String)
    (side_blur side_alpha : ℚ)
    (side_scale_curve side_blur_curve side_alpha_curve : String)
    (side_scale_start side_blur_start side_alpha_start : ℤ) :
    Option TransformOut × ℤ × ℤ :=
  let w : ℚ := imgW
  let h : ℚ := imgH
  let abs_angle : ℚ := |angle|
  let position_scale := positionScale F side_scale abs_angle
  let effective_scale_angle : ℚ := max 0 (abs_angle - (side_scale_start - 1))
  let scale := visualScale F side_scale effective_scale_angle side_scale_curve
  let new_w := pyInt (w * scale)
  let new_h := pyInt (h * scale)
  if new_w ≤ 0 ∨ new_h ≤ 0 then (none, 0, 0)
  else
    let effective_blur_angle : ℚ := max 0 (abs_angle - (side_blur_start - 1))
    let blurKsize : ℤ :=
      if side_blur > 0 ∧ effective_blur_angle > 1/100 then
        let blur_amount := apply_increase_curve F side_blur effective_blur_angle side_blur_curve
        let ksize := pyInt blur_amount * 2 + 1
        if ksize > 1 then ksize else 1
      else 1
    let effective_alpha_angle : ℚ := max 0 (abs_angle - (side_alpha_start - 1))
    let alphaFactor : ℚ :=
      if side_alpha < 1 ∧ effective_alpha_angle > 1/100 then
        apply_decay_curve F side_alpha effective_alpha_angle side_alpha_curve
      else 1
    if abs_angle < 1/100 then
      (some ⟨new_w.toNat, new_h.toNat, false, 0, 0, blurKsize, alphaFactor⟩,
       pyInt (((canvas_width : ℚ) - new_w) / 2),
       pyInt (((canvas_height : ℚ) - new_h) / 2))
    else if mode = "flat" then
      let x_offset :=
        if abs_angle < 1/100 then
          pyInt (((canvas_width : ℚ) - new_w) / 2)
        else
          let k := 1/2 * (1 - side_scale) + spacing * side_scale
          let displacement :=
            if side_scale < 1 then w * k * (1 - position_scale) / (1 - side_scale)
            else w * k * abs_angle
          if angle > 0 then
            pyInt (((canvas_width : ℚ) - new_w) / 2 + displacement)
          else
            pyInt (((canvas_width : ℚ) - new_w) / 2 - displacement)
      (some ⟨new_w.toNat, new_h.toNat, false, 0, 0, blurKsize, alphaFactor⟩,
       x_offset, pyInt (((canvas_height : ℚ) - new_h) / 2))
    else
      let perspective_amount := abs_angle * perspective
      let h_inset := pyInt ((new_w : ℚ) * perspective_amount)
      let v_inset := pyInt ((new_h : ℚ) * perspective_amount / 2)
      (some ⟨new_w.toNat, new_h.toNat, true, h_inset, v_inset, blurKsize, alphaFactor⟩,
       pyInt (((canvas_width : ℚ) - new_w) / 2 +
         angle * canvas_width * spacing * position_scale),
       pyInt (((canvas_height : ℚ) - new_h) / 2))

/-- Modelled from the spec (claim C4's words): the flat-mode horizontal
displacement `base_width · k · (1 − scale) / (1 − side_scale)` with
`k = 0.5·(1−side_scale) + spacing·side_scale` and `scale` *the image's
visual scale factor*, linear in `|angle|` when `side_scale ≥ 1`.  The
source (`transforms.py:131-137`) instead uses `position_scale` in place of
the visual scale factor; this definition exists to be compared with it. -/
def flat_displacement_claimed (imgW : ℕ) (ss spacing visual_scale abs_angle : ℚ) : ℚ :=
  let k := 1/2 * (1 - ss) + spacing * ss
  if ss < 1 then (imgW : ℚ) * k * (1 - visual_scale) / (1 - ss)
  else (imgW : ℚ) * k * abs_angle

/-- `ImageTransformer.create_reflection` of `transforms.py:202-288`:
apply `apply_perspective`, then (on success) flip, crop to
`max(1, int(h * reflection_length))` rows and fade the alpha channel.  The
descriptor keeps the cropped dimensions. -/
def create_reflection (F : RealFuns) (imgW imgH : ℕ) (position : ℚ)
    (canvas_width canvas_height : ℕ)
    (alpha perspective side_scale spacing : ℚ) (mode : String)
    (reflection_length : ℚ) (side_blur side_alpha : ℚ)
    (side_scale_curve side_blur_curve side_alpha_curve : String)
    (side_scale_start side_blur_start side_alpha_start : ℤ) :
    Option (ℕ × ℕ) × ℤ × ℤ :=
  match apply_perspective F imgW imgH position canvas_width canvas_height
      perspective side_scale spacing mode side_blur side_alpha
      side_scale_curve side_blur_curve side_alpha_curve
      side_scale_start side_blur_start side_alpha_start with
  | (none, _, _) => (none, 0, 0)
  | (some out, x_offset, y_offset) =>
    let crop_h := max 1 (pyInt ((out.height : ℚ) * reflection_length))
    ((some (out.width, crop_h.toNat)), x_offset, y_offset)

/-! ## Frame compositor (`src/coverflow/renderer.py`)

`CoverflowRenderer.render_frame` is modelled as the ordered sequence of
alpha-composite operations it performs onto the canvas (the painter
sequence); each operation records which image, whether it is the main
image or its reflection, and where it lands. -/

/-- The relevant configuration fields of `Config`
(`src/coverflow/config.py`) consumed by `render_frame`. -/
structure RenderConfig where
  width : ℕ
  height : ℕ
  visible_range : ℕ
  repeatWrap : Bool
  perspective : ℚ
  side_scale : ℚ
  spacing : ℚ
  mode : String
  side_blur : ℚ
  side_alpha : ℚ
  side_scale_curve : String
  side_blur_curve : String
  side_alpha_curve : String
  side_scale_start : ℤ
  side_blur_start : ℤ
  side_alpha_start : ℤ
  image_y : ℚ
  alignment : String
  reflection : ℚ
  reflection_length : ℚ

/-- One entry of the `to_render` list built by `render_frame`
(`renderer.py:192-207`): `(depth, position, image index)`. -/
structure RenderEntry where
  depth : ℚ
  position : ℚ
  imgIdx : ℤ
  deriving DecidableEq

/-- The `to_render` list of `render_frame` (`renderer.py:192-207`): for
`i` in `[-visible_range, visible_range]`, resolve the image index (wrapped
modulo the image count when `repeat` is set), drop it when out of range,
and record `(depth, position, index)` with `position = i - offset` and
`depth = |position|`. -/
def to_render (cfg : RenderConfig) (numImages : ℕ) (center_idx : ℤ)
    (offset : ℚ) : List RenderEntry :=
  (List.range (2 * cfg.visible_range + 1)).filterMap (fun (j : ℕ) =>
    let i : ℤ := (j : ℤ) - cfg.visible_range
    let img_idx : ℤ := center_idx + i
    let img_idx : ℤ := if cfg.repeatWrap then img_idx % numImages else img_idx
    if 0 ≤ img_idx ∧ img_idx < numImages then
      let position : ℚ := (i : ℚ) - offset
      some ⟨|position|, position, img_idx⟩
    else none)

/-- The sort of `renderer.py:210`: `to_render.sort(key=lambda x: -x[0])`,
a stable sort into descending depth order. -/
def sortedRender (cfg : RenderConfig) (numImages : ℕ) (center_idx : ℤ)
    (offset : ℚ) : List RenderEntry :=
  (to_render cfg numImages center_idx offset).mergeSort
    (fun a b => decide (b.depth ≤ a.depth))

/-- One alpha-composite operation performed by `render_frame`. -/
structure CompositeOp where
  imgIdx : ℤ
  isReflection : Bool
  x : ℤ
  y : ℤ
  width : ℕ
  height : ℕ
  deriving DecidableEq

/-- The `apply_perspective` call `render_frame` makes for one entry of the
render list (`renderer.py:222-228`), with the entry's image dimensions
fetched from the pre-scaled image list. -/
def transformFor (F : RealFuns) (cfg : RenderConfig) (imgs : List (ℕ × ℕ))
    (e : RenderEntry) : Option TransformOut × ℤ × ℤ :=
  let dims := imgs.getD e.imgIdx.toNat (0, 0)
  apply_perspective F dims.1 dims.2 e.position cfg.width cfg.height
    cfg.perspective cfg.side_scale cfg.spacing cfg.mode
    cfg.side_blur cfg.side_alpha
    cfg.side_scale_curve cfg.side_blur_curve cfg.side_alpha_curve
    cfg.side_scale_start cfg.side_blur_start cfg.side_alpha_start

/-- The composite operations `render_frame` performs for one entry of the
sorted render list (`renderer.py:217-266`): nothing when the transform is
degenerate, otherwise the main image (with its vertical placement from
`image_y` and `alignment`) followed by its reflection when
`reflection > 0` and the reflection is non-degenerate. -/
def opsForEntry (F : RealFuns) (cfg : RenderConfig) (imgs : List (ℕ × ℕ))
    (e : RenderEntry) : List CompositeOp :=
  let dims := imgs.getD e.imgIdx.toNat (0, 0)
  match transformFor F cfg imgs e with
  | (none, _, _) => []
  | (some out, x_pos, _) =>
    let base_y := pyInt ((cfg.height : ℚ) * cfg.image_y - (out.height : ℚ) / 2)
    let y_pos :=
      if cfg.alignment = "bottom" then pyInt ((base_y : ℚ) + (out.height : ℚ) / 2)
      else if cfg.alignment = "top" then pyInt ((base_y : ℚ) - (out.height : ℚ) / 2)
      else base_y
    let mainOp : CompositeOp := ⟨e.imgIdx, false, x_pos, y_pos, out.width, out.height⟩
    if cfg.reflection > 0 then
      match create_reflection F dims.1 dims.2 e.position cfg.width cfg.height
          cfg.reflection cfg.perspective cfg.side_scale cfg.spacing cfg.mode
          cfg.reflection_length cfg.side_blur cfg.side_alpha
          cfg.side_scale_curve cfg.side_blur_curve cfg.side_alpha_curve
          cfg.side_scale_start cfg.side_blur_start cfg.side_alpha_start with
      | (none, _, _) => [mainOp]
      | (some (rw, rh), refl_x, _) =>
        let refl_y := y_pos + (out.height : ℤ) + 5
        [mainOp, ⟨e.imgIdx, true, refl_x, refl_y, rw, rh⟩]
    else [mainOp]

/-- `render_frame` as its painter sequence: the composite operations, in
the order they are applied to the canvas (`renderer.py:217-266`).
`imgs` is the list of (width, height) of the pre-scaled images. -/
def render_ops (F : RealFuns) (cfg : RenderConfig) (imgs : List (ℕ × ℕ))
    (center_idx : ℤ) (offset : ℚ) : List CompositeOp :=
  (sortedRender cfg imgs.length center_idx offset).flatMap (opsForEntry F cfg imgs)

/-! ## Animation timeline (`src/coverflow/video_generator.py`) -/

/-- Frame counts computed by `VideoGenerator.generate`
(`video_generator.py:161-164`): `int(seconds * fps)` for transition, hold
and first hold (first hold falls back to `hold` when unset). -/
def frame_counts (transition hold : ℚ) (first_hold : Option ℚ) (fps : ℚ) :
    ℤ × ℤ × ℤ :=
  (pyInt (transition * fps), pyInt (hold * fps),
   pyInt ((first_hold.getD hold) * fps))

/-- Total frame count computed by `VideoGenerator.generate`
(`video_generator.py:167-175`), as a function of the image count and the
already-computed frame counts. -/
def total_frames (num_images first_hold_frames hold_frames transition_frames : ℕ)
    (loop : Bool) : ℕ :=
  let base :=
    if num_images > 1 then
      first_hold_frames + (num_images - 1) * hold_frames +
        (num_images - 1) * transition_frames
    else first_hold_frames
  if loop then base + transition_frames else base

/-- Frame → (image index, offset) mapping of the preview branch of
`VideoGenerator.generate` (`video_generator.py:213-237`), with the easing
function abstract. -/
def frame_to_image_offset (easing : ℚ → ℚ)
    (num_images first_hold_frames hold_frames transition_frames : ℕ)
    (target_frame : ℕ) : ℕ × ℚ :=
  let first_segment := first_hold_frames + transition_frames
  let regular_segment := hold_frames + transition_frames
  let (img_idx, frame_in_segment, current_hold_frames) :=
    if target_frame < first_segment then
      (0, target_frame, first_hold_frames)
    else
      let remaining := target_frame - first_segment
      (1 + remaining / regular_segment, remaining % regular_segment, hold_frames)
  let img_idx := min img_idx (num_images - 1)
  if frame_in_segment < current_hold_frames then
    (img_idx, 0)
  else
    let trans_frame := frame_in_segment - current_hold_frames
    let offset : ℚ :=
      if transition_frames > 0 then
        (trans_frame : ℚ) / (transition_frames : ℚ)
      else 0
    (img_idx, easing offset)

/-- A small concrete render configuration (three visible slots, no
repeat wrap, no reflection) used by concrete render-frame evaluations. -/
def demoConfig : RenderConfig where
  width := 1920
  height := 1080
  visible_range := 1
  repeatWrap := false
  perspective := 3/10
  side_scale := 4/5
  spacing := 7/20
  mode := "arc"
  side_blur := 0
  side_alpha := 1
  side_scale_curve := "exponential"
  side_blur_curve := "linear"
  side_alpha_curve := "exponential"
  side_scale_start := 1
  side_blur_start := 1
  side_alpha_start := 1
  image_y := 1/2
  alignment := "center"
  reflection := 0
  reflection_length := 1/2

/-! ## Supporting lemmas -/

/-- Membership in the `to_render` list, characterised by the signed slot
offset `i` from the center index. -/
theorem mem_to_render_iff (cfg : RenderConfig) (n : ℕ) (c : ℤ) (off : ℚ)
    (e : RenderEntry) :
    e ∈ to_render cfg n c off ↔
      ∃ i : ℤ, -(cfg.visible_range : ℤ) ≤ i ∧ i ≤ (cfg.visible_range : ℤ) ∧
        (0 ≤ (if cfg.repeatWrap then (c + i) % (n : ℤ) else c + i)
         ∧ (if cfg.repeatWrap then (c + i) % (n : ℤ) else c + i) < (n : ℤ)
         ∧ e = ⟨|(i : ℚ) - off|, (i : ℚ) - off,
              if cfg.repeatWrap then (c + i) % (n : ℤ) else c + i⟩) := by
  unfold to_render
  rw [List.mem_filterMap]
  constructor
  · rintro ⟨j, hj, hfj⟩
    rw [List.mem_range] at hj
    refine ⟨(j : ℤ) - cfg.visible_range, by omega, by omega, ?_⟩
    by_cases hcond : 0 ≤ (if cfg.repeatWrap then (c + ((j : ℤ) - cfg.visible_range)) % (n : ℤ) else c + ((j : ℤ) - cfg.visible_range))
        ∧ (if cfg.repeatWrap then (c + ((j : ℤ) - cfg.visible_range)) % (n : ℤ) else c + ((j : ℤ) - cfg.visible_range)) < (n : ℤ)
    · rw [if_pos hcond] at hfj
      exact ⟨hcond.1, hcond.2, (Option.some.inj hfj).symm⟩
    · rw [if_neg hcond] at hfj
      exact absurd hfj (by simp)
  · rintro ⟨i, hlo, hhi, h0, hn, rfl⟩
    refine ⟨(i + cfg.visible_range).toNat, by rw [List.mem_range]; omega, ?_⟩
    have hidx : (((i + (cfg.visible_range : ℤ)).toNat : ℤ)) - (cfg.visible_range : ℤ) = i := by
      omega
    simp only [hidx]
    rw [if_pos ⟨h0, hn⟩]

/-- In a list sorted into non-increasing depth order, the last element has
minimal depth. -/
theorem pairwise_getLast_min {l : List RenderEntry}
    (hl : l.Pairwise (fun a b => b.depth ≤ a.depth)) (h : l ≠ []) :
    ∀ e ∈ l, (l.getLast h).depth ≤ e.depth := by
  induction l with
  | nil => exact absurd rfl h
  | cons a t ih =>
    intro e he
    rw [List.pairwise_cons] at hl
    cases t with
    | nil =>
      simp only [List.mem_singleton] at he
      subst he
      simp [List.getLast]
    | cons b t2 =>
      rcases List.mem_cons.mp he with rfl | he2
      · rw [List.getLast_cons (by simp)]
        exact hl.1 _ (List.getLast_mem (by simp))
      · rw [List.getLast_cons (by simp)]
        exact ih hl.2 (by simp) e he2

/-- The visible set of `demoConfig` with three images, center 1, offset 0:
slot offsets −1, 0, 1 give depths 1, 0, 1. -/
theorem to_render_demo :
    to_render demoConfig 3 1 0 =
      [⟨1, -1, 0⟩, ⟨0, 0, 1⟩, ⟨1, 1, 2⟩] := by
  unfold to_render demoConfig
  norm_num [List.range_succ, List.filterMap_cons]

/-- Python's `int()` agrees with the floor on non-negative arguments. -/
theorem pyInt_eq_floor (q : ℚ) (hq : 0 ≤ q) : pyInt q = ⌊q⌋ := by
  unfold pyInt
  rw [Rat.floor_def]
  exact Int.tdiv_eq_ediv (Rat.num_nonneg.mpr hq) (Int.ofNat_nonneg _)

/-- A name that is not among an association list's keys looks up to
`none`. -/
theorem lookup_eq_none_of_not_mem {α β : Type} [BEq α] [LawfulBEq α]
    {l : List (α × β)} {a : α} (h : a ∉ l.map Prod.fst) :
    List.lookup a l = none := by
  induction l with
  | nil => rfl
  | cons x xs ih =>
    obtain ⟨k, b⟩ := x
    simp only [List.map, List.mem_cons, not_or] at h
    have hk : (a == k) = false := beq_eq_false_iff_ne.mpr h.1
    simp [List.lookup, hk, ih h.2]

/-- Every composite operation emitted for a render entry carries that
entry's image index. -/
theorem opsForEntry_imgIdx (F : RealFuns) (cfg : RenderConfig)
    (imgs : List (ℕ × ℕ)) (e : RenderEntry) :
    ∀ op ∈ opsForEntry F cfg imgs e, op.imgIdx = e.imgIdx := by
  intro op hop
  unfold opsForEntry at hop
  rcases h : transformFor F cfg imgs e with ⟨t, x, y⟩
  rw [h] at hop
  cases t with
  | none => simp at hop
  | some out =>
    by_cases hrefl : cfg.reflection > 0
    · simp only [if_pos hrefl] at hop
      rcases hr : create_reflection F (imgs.getD e.imgIdx.toNat (0, 0)).1
          (imgs.getD e.imgIdx.toNat (0, 0)).2 e.position cfg.width cfg.height
          cfg.reflection cfg.perspective cfg.side_scale cfg.spacing cfg.mode
          cfg.reflection_length cfg.side_blur cfg.side_alpha
          cfg.side_scale_curve cfg.side_blur_curve cfg.side_alpha_curve
          cfg.side_scale_start cfg.side_blur_start cfg.side_alpha_start with ⟨r, rx, ry⟩
      simp only [hr] at hop
      cases r with
      | none => simp at hop; rw [hop]
      | some rwh =>
        rcases rwh with ⟨rw1, rh1⟩
        simp at hop
        rcases hop with rfl | rfl <;> rfl
    · simp only [if_neg hrefl] at hop
      simp at hop
      rw [hop]

/-- Without repeat wrap, a visible entry is determined by its image
index. -/
theorem to_render_imgIdx_inj (cfg : RenderConfig) (n : ℕ) (c : ℤ) (off : ℚ)
    (hrep : cfg.repeatWrap = false) {e1 e2 : RenderEntry}
    (h1 : e1 ∈ to_render cfg n c off) (h2 : e2 ∈ to_render cfg n c off)
    (heq : e1.imgIdx = e2.imgIdx) : e1 = e2 := by
  rw [mem_to_render_iff] at h1 h2
  obtain ⟨i1, _, _, _, _, rfl⟩ := h1
  obtain ⟨i2, _, _, _, _, rfl⟩ := h2
  simp only [hrep, Bool.false_eq_true, if_false] at heq ⊢
  simp only [RenderEntry.mk.injEq] at heq ⊢
  have : i1 = i2 := by omega
  subst this
  exact ⟨rfl, rfl, rfl⟩

/-! ## Claims -/

/-- C1: for every image count `N ≥ 1`, hold/transition/first-hold frame
counts and loop flag, the total frame count computed by
`VideoGenerator.generate` equals
`first_hold_frames + (N-1)·hold_frames + (N-1)·transition_frames`, plus an
extra `transition_frames` when the loop flag is set. -/
theorem total_frames_eq (N fh h tf : ℕ) (loop : Bool) (hN : 1 ≤ N) :
    total_frames N fh h tf loop =
      fh + (N - 1) * h + (N - 1) * tf + (if loop then tf else 0) := by
  unfold total_frames
  by_cases hN1 : N > 1
  · simp only [if_pos hN1]
    cases loop <;> simp
  · have hN' : N = 1 := by omega
    subst hN'
    cases loop <;> simp

/-- Witness for C1: `N = 5`, `hold_frames = 20`, `transition_frames = 10`,
first hold equal to hold, no loop gives 140 total frames. -/
theorem total_frames_eq_witness :
    (1 : ℕ) ≤ 5 ∧ total_frames 5 20 20 10 false = 140 :=
  ⟨by decide, (total_frames_eq 5 20 20 10 false (by decide)).trans (by decide)⟩

/-- C3 counterexample: with `hold = 0.9 s` and `fps = 1`, the code's
`hold_frames = int(0.9 * 1) = 0`, while rounding to the nearest integer
gives `round(0.9) = 1`: the claimed `hold_frames = round(hold·fps)` is
false. -/
theorem frame_counts_not_round :
    ¬ (frame_counts (1/2) (9/10) none 1).2.1 = roundNearest ((9/10) * 1) := by
  have h1 : (frame_counts (1/2) (9/10) none 1).2.1 = 0 := by
    simp [frame_counts, pyInt]
    norm_num
    decide
  have h2 : roundNearest ((9/10) * 1) = 1 := by
    unfold roundNearest
    norm_num
  rw [h1, h2]
  decide

/-- C3 (amended): `VideoGenerator.generate` computes
`hold_frames = int(hold_seconds · fps)`, truncation toward zero — which is
the floor, not the nearest integer, whenever the products are
non-negative — and likewise for `transition_frames` and
`first_hold_frames` (the latter falling back to `hold` when unset). -/
theorem frame_counts_floor (t h : ℚ) (fh : Option ℚ) (fps : ℚ)
    (ht : 0 ≤ t * fps) (hh : 0 ≤ h * fps) (hf : 0 ≤ (fh.getD h) * fps) :
    frame_counts t h fh fps =
      (⌊t * fps⌋, ⌊h * fps⌋, ⌊(fh.getD h) * fps⌋) := by
  unfold frame_counts
  rw [pyInt_eq_floor _ ht, pyInt_eq_floor _ hh, pyInt_eq_floor _ hf]

/-- Witness for C3 (amended) at `transition = 0.5 s`, `hold = 0.9 s`,
no distinct first hold, `fps = 1`. -/
theorem frame_counts_floor_witness :
    frame_counts (1/2) (9/10) none 1 =
      (⌊(1/2 : ℚ) * 1⌋, ⌊(9/10 : ℚ) * 1⌋, ⌊((none : Option ℚ).getD (9/10)) * 1⌋) :=
  frame_counts_floor (1/2) (9/10) none 1 (by norm_num) (by norm_num) (by norm_num)

/-- C2: the frame → (imageIndex, offset) mapping places a frame in a first
segment of length `first_hold_frames + transition_frames` (image 0) and
thereafter in uniform segments of length `hold_frames + transition_frames`
(segment `s` showing image `s`); within a segment the offset is `0` in the
hold sub-range and `easing(trans_frame / transition_frames)` afterwards.
In particular, with `N = 5`, `hold_frames = 20`, `transition_frames = 10`,
first hold equal to hold: frame 19 ↦ (image 0, offset 0), frame
20 ↦ (image 0, `easing 0`), frame 29 ↦ (image 0, `easing (9/10)`). -/
theorem frame_mapping_spec (e : ℚ → ℚ) (N fh h tf : ℕ) (htf : 0 < tf) :
    (∀ f, f < fh + tf →
      frame_to_image_offset e N fh h tf f =
        (0, if f < fh then 0 else e (((f - fh : ℕ) : ℚ) / (tf : ℕ))))
    ∧ (∀ s f, 1 ≤ s → s ≤ N - 1 →
        fh + tf + (s - 1) * (h + tf) ≤ f → f < fh + tf + s * (h + tf) →
        frame_to_image_offset e N fh h tf f =
          (s, if f - (fh + tf + (s - 1) * (h + tf)) < h then 0
              else e (((f - (fh + tf + (s - 1) * (h + tf)) - h : ℕ) : ℚ) / (tf : ℕ))))
    ∧ frame_to_image_offset e 5 20 20 10 19 = (0, 0)
    ∧ frame_to_image_offset e 5 20 20 10 20 = (0, e 0)
    ∧ frame_to_image_offset e 5 20 20 10 29 = (0, e (9/10)) := by
  refine ⟨?_, ?_, ?_, ?_, ?_⟩
  · intro f hf
    unfold frame_to_image_offset
    simp only [if_pos hf, Nat.zero_min, htf]
    by_cases hfh : f < fh
    · simp [hfh]
    · simp [hfh, htf]
  · intro s f hs hsN hlo hhi
    obtain ⟨m, rfl⟩ : ∃ m, s = m + 1 := ⟨s - 1, by omega⟩
    simp only [Nat.add_sub_cancel] at hlo hhi ⊢
    rw [Nat.add_one_mul] at hhi
    set u := f - (fh + tf + m * (h + tf)) with hu
    have hc : ¬ f < fh + tf := by omega
    have hfu : f - (fh + tf) = u + m * (h + tf) := by omega
    have hult : u < h + tf := by omega
    unfold frame_to_image_offset
    simp only [if_neg hc, hfu,
      Nat.add_mul_div_right _ _ (by omega : 0 < h + tf),
      Nat.add_mul_mod_self_right,
      Nat.div_eq_of_lt hult, Nat.mod_eq_of_lt hult, Nat.add_zero, Nat.zero_add]
    have hmin : (1 + m) ⊓ (N - 1) = m + 1 := by omega
    rw [hmin]
    by_cases huh : u < h <;> simp [huh, htf]
  · simp [frame_to_image_offset]
  · simp [frame_to_image_offset]
  · simp [frame_to_image_offset]

/-- Witness for C2 at the identity easing: frame 29 of the
`N = 5, hold = 20, transition = 10` timeline maps to image 0 with offset
`9/10`. -/
theorem frame_mapping_spec_witness :
    frame_to_image_offset (fun t => t) 5 20 20 10 29 = (0, 9/10) :=
  (frame_mapping_spec (fun t => t) 5 20 20 10 (by norm_num)).2.2.2.2

/-- C4 counterexample: flat mode, `angle = 1`, `side_scale = 1/2`,
`spacing = 7/20`, image width 100, canvas width 1000, exponential scale
curve with `side_scale_start = 2`.  The visual scale factor is `1` (the
effective scale angle is `0`), so the claim's displacement formula gives
`x = int(450 + 100·k·(1−1)/(1/2)) = 450`; the code uses
`position_scale = (1/2)¹ = 1/2` and lands at `x = int(450 + 42.5) = 492`. -/
theorem flat_x_not_visual_scale :
    ¬ ((apply_perspective ratFuns 100 50 1 1000 500 (3/10) (1/2) (7/20) "flat"
          0 1 "exponential" "linear" "exponential" 2 1 1).2.1 =
        pyInt (((1000 : ℚ) -
            pyInt ((100 : ℚ) *
              visualScale ratFuns (1/2) (max 0 (|(1:ℚ)| - ((2:ℤ) - 1))) "exponential")) / 2 +
          flat_displacement_claimed 100 (1/2) (7/20)
            (visualScale ratFuns (1/2) (max 0 (|(1:ℚ)| - ((2:ℤ) - 1))) "exponential")
            |(1:ℚ)|)) := by
  have hlk : DECAY_CURVE_FUNCTIONS.lookup "exponential" = some DecayTag.exponential := by
    decide
  have hv : visualScale ratFuns (1/2) (max 0 (|(1:ℚ)| - ((2:ℤ) - 1))) "exponential" = 1 := by
    norm_num [visualScale, apply_decay_curve, hlk, evalDecay, decay_exponential, ratFuns]
  have hcode : (apply_perspective ratFuns 100 50 1 1000 500 (3/10) (1/2) (7/20) "flat"
      0 1 "exponential" "linear" "exponential" 2 1 1).2.1 = 492 := by
    unfold apply_perspective
    norm_num [visualScale, apply_decay_curve, hlk, evalDecay, decay_exponential,
      ratFuns, positionScale, pyInt]
    try decide
  have hclaim : pyInt (((1000 : ℚ) -
      pyInt ((100 : ℚ) *
        visualScale ratFuns (1/2) (max 0 (|(1:ℚ)| - ((2:ℤ) - 1))) "exponential")) / 2 +
      flat_displacement_claimed 100 (1/2) (7/20)
        (visualScale ratFuns (1/2) (max 0 (|(1:ℚ)| - ((2:ℤ) - 1))) "exponential")
        |(1:ℚ)|) = 450 := by
    rw [hv]
    norm_num [flat_displacement_claimed, pyInt]
    try decide
  rw [hcode, hclaim]
  decide

/-- C4 (amended): in flat mode, for every angle with `|angle| ≥ 0.01`, the
horizontal placement computed by `apply_perspective` is `int` of the
centering offset plus/minus (per the sign of the angle) the displacement
`base_width·k·(1−scale)/(1−side_scale)` with
`k = 0.5·(1−side_scale) + spacing·side_scale` — where the scale in the
formula is `position_scale = side_scale ** |angle|` (the pure exponential
decay, `1` when `side_scale ≤ 0`), **not** the image's visual scale
factor; when `side_scale ≥ 1` the displacement is `base_width·k·|angle|`,
linear in `|angle|`. -/
theorem flat_x_displacement (F : RealFuns) (imgW imgH : ℕ) (angle : ℚ)
    (cw ch : ℕ) (perspective ss spacing side_blur side_alpha : ℚ)
    (curve blurCurve alphaCurve : String) (sss sbs sas : ℤ)
    (hang : ¬ |angle| < 1/100)
    (hw : 0 < pyInt ((imgW : ℚ) * visualScale F ss (max 0 (|angle| - (sss - 1))) curve))
    (hh : 0 < pyInt ((imgH : ℚ) * visualScale F ss (max 0 (|angle| - (sss - 1))) curve)) :
    (apply_perspective F imgW imgH angle cw ch perspective ss spacing "flat"
        side_blur side_alpha curve blurCurve alphaCurve sss sbs sas).2.1 =
      if angle > 0 then
        pyInt (((cw : ℚ) -
            pyInt ((imgW : ℚ) * visualScale F ss (max 0 (|angle| - (sss - 1))) curve)) / 2 +
          flat_displacement_claimed imgW ss spacing
            (if ss > 0 then F.pw ss |angle| else 1) |angle|)
      else
        pyInt (((cw : ℚ) -
            pyInt ((imgW : ℚ) * visualScale F ss (max 0 (|angle| - (sss - 1))) curve)) / 2 -
          flat_displacement_claimed imgW ss spacing
            (if ss > 0 then F.pw ss |angle| else 1) |angle|) := by
  have hcond : ¬ (pyInt ((imgW : ℚ) * visualScale F ss (max 0 (|angle| - (sss - 1))) curve) ≤ 0 ∨
      pyInt ((imgH : ℚ) * visualScale F ss (max 0 (|angle| - (sss - 1))) curve) ≤ 0) := by
    omega
  unfold apply_perspective
  simp only [if_neg hcond, if_neg hang, if_pos (rfl : ("flat" : String) = "flat")]
  norm_num [positionScale, flat_displacement_claimed]

/-- Witness for C4 (amended) at the counterexample's input: the code's
`x = 492` equals the centering offset plus the displacement computed from
`position_scale = 1/2`. -/
theorem flat_x_displacement_witness :
    (apply_perspective ratFuns 100 50 1 1000 500 (3/10) (1/2) (7/20) "flat"
        0 1 "exponential" "linear" "exponential" 2 1 1).2.1 =
      if (1 : ℚ) > 0 then
        pyInt (((1000 : ℚ) -
            pyInt ((100 : ℚ) *
              visualScale ratFuns (1/2) (max 0 (|(1:ℚ)| - ((2:ℤ) - 1))) "exponential")) / 2 +
          flat_displacement_claimed 100 (1/2) (7/20)
            (if (1/2 : ℚ) > 0 then ratFuns.pw (1/2) |(1:ℚ)| else 1) |(1:ℚ)|)
      else
        pyInt (((1000 : ℚ) -
            pyInt ((100 : ℚ) *
              visualScale ratFuns (1/2) (max 0 (|(1:ℚ)| - ((2:ℤ) - 1))) "exponential")) / 2 -
          flat_displacement_claimed 100 (1/2) (7/20)
            (if (1/2 : ℚ) > 0 then ratFuns.pw (1/2) |(1:ℚ)| else 1) |(1:ℚ)|) := by
  have hlk : DECAY_CURVE_FUNCTIONS.lookup "exponential" = some DecayTag.exponential := by
    decide
  exact flat_x_displacement ratFuns 100 50 1 1000 500 (3/10) (1/2) (7/20) 0 1
    "exponential" "linear" "exponential" 2 1 1
    (by norm_num)
    (by norm_num [visualScale, apply_decay_curve, hlk, evalDecay,
          decay_exponential, ratFuns, pyInt]
        try decide)
    (by norm_num [visualScale, apply_decay_curve, hlk, evalDecay,
          decay_exponential, ratFuns, pyInt]
        try decide)

/-- C5: in arc mode, for every angle with `|angle| ≥ 0.01` and every
choice of visual-scale curve, the horizontal canvas placement computed by
`apply_perspective` is `int` of the centering offset plus
`angle · canvasWidth · spacing · position_scale`, where `position_scale`
is the pure exponential decay `side_scale ** |angle|` (`1.0` when
`side_scale ≤ 0`) — independent of the selected `side_scale_curve`. -/
theorem arc_x_placement (F : RealFuns) (imgW imgH : ℕ) (angle : ℚ)
    (cw ch : ℕ) (perspective ss spacing side_blur side_alpha : ℚ)
    (curve blurCurve alphaCurve : String) (sss sbs sas : ℤ)
    (hang : ¬ |angle| < 1/100)
    (hw : 0 < pyInt ((imgW : ℚ) * visualScale F ss (max 0 (|angle| - (sss - 1))) curve))
    (hh : 0 < pyInt ((imgH : ℚ) * visualScale F ss (max 0 (|angle| - (sss - 1))) curve)) :
    (apply_perspective F imgW imgH angle cw ch perspective ss spacing "arc"
        side_blur side_alpha curve blurCurve alphaCurve sss sbs sas).2.1 =
      pyInt (((cw : ℚ) -
          pyInt ((imgW : ℚ) * visualScale F ss (max 0 (|angle| - (sss - 1))) curve)) / 2 +
        angle * cw * spacing * (if ss > 0 then F.pw ss |angle| else 1)) := by
  have hcond : ¬ (pyInt ((imgW : ℚ) * visualScale F ss (max 0 (|angle| - (sss - 1))) curve) ≤ 0 ∨
      pyInt ((imgH : ℚ) * visualScale F ss (max 0 (|angle| - (sss - 1))) curve) ≤ 0) := by
    omega
  unfold apply_perspective
  simp only [if_neg hcond, if_neg hang,
    if_neg (show ¬ ("arc" : String) = "flat" by decide)]
  norm_num [positionScale]

/-- Witness for C5: image 100×50 at angle 1 on a 1000×500 canvas with
`side_scale = 1/2`, `spacing = 7/20` and the exponential curve lands at
`x = int((1000-50)/2 + 1·1000·(7/20)·(1/2)) = 650`. -/
theorem arc_x_placement_witness :
    (apply_perspective ratFuns 100 50 1 1000 500 (3/10) (1/2) (7/20) "arc"
        0 1 "exponential" "linear" "exponential" 1 1 1).2.1 = 650 := by
  have hlk : DECAY_CURVE_FUNCTIONS.lookup "exponential" = some DecayTag.exponential := by
    decide
  rw [arc_x_placement ratFuns 100 50 1 1000 500 (3/10) (1/2) (7/20) 0 1
    "exponential" "linear" "exponential" 1 1 1
    (by norm_num)
    (by norm_num [visualScale, apply_decay_curve, hlk, evalDecay,
          decay_exponential, ratFuns, pyInt]
        try decide)
    (by norm_num [visualScale, apply_decay_curve, hlk, evalDecay,
          decay_exponential, ratFuns, pyInt]
        try decide)]
  norm_num [visualScale, apply_decay_curve, hlk, evalDecay,
    decay_exponential, ratFuns, pyInt]
  try decide

/-- C6 counterexample: at `angle = 1/256` (so `|angle| < 0.01`) with the
`"linear"` scale curve, image width 1024 and canvas width 2000, changing
`side_scale` from `1/2` to `3/4` changes the scaled width (1022 vs 1023)
and the returned x offset (489 vs 488): the near-center result is *not*
independent of `side_scale`. -/
theorem near_center_depends_on_side_scale :
    ¬ ((apply_perspective ratFuns 1024 512 (1/256) 2000 1000 (3/10) (1/2) (7/20)
          "arc" 0 1 "linear" "linear" "exponential" 1 1 1).2.1 =
       (apply_perspective ratFuns 1024 512 (1/256) 2000 1000 (3/10) (3/4) (7/20)
          "arc" 0 1 "linear" "linear" "exponential" 1 1 1).2.1) := by
  have hlk : DECAY_CURVE_FUNCTIONS.lookup "linear" = some DecayTag.linear := by
    decide
  have hab : |(1/256 : ℚ)| = 1/256 := by
    rw [abs_of_pos] <;> norm_num
  have h1 : (apply_perspective ratFuns 1024 512 (1/256) 2000 1000 (3/10) (1/2) (7/20)
      "arc" 0 1 "linear" "linear" "exponential" 1 1 1).2.1 = 489 := by
    unfold apply_perspective
    norm_num [visualScale, apply_decay_curve, hlk, evalDecay, decay_linear,
      ratFuns, positionScale, pyInt, hab]
    try decide
  have h2 : (apply_perspective ratFuns 1024 512 (1/256) 2000 1000 (3/10) (3/4) (7/20)
      "arc" 0 1 "linear" "linear" "exponential" 1 1 1).2.1 = 488 := by
    unfold apply_perspective
    norm_num [visualScale, apply_decay_curve, hlk, evalDecay, decay_linear,
      ratFuns, positionScale, pyInt, hab]
    try decide
  rw [h1, h2]
  decide

/-- C6 (amended): for every angle with `|angle| < 0.01`,
`apply_perspective` applies no perspective distortion (no quadrilateral
warp, zero insets) and returns the scaled image centered on the canvas
(x and y offsets are `int` of half the difference between canvas and
scaled image dimensions); the result is independent of the `perspective`
parameter — but, because the visual scale is still evaluated at the small
non-zero angle, it is *not* independent of `side_scale`. -/
theorem near_center_exemption (F : RealFuns) (imgW imgH : ℕ) (angle : ℚ)
    (cw ch : ℕ) (perspective ss spacing side_blur side_alpha : ℚ)
    (mode curve blurCurve alphaCurve : String) (sss sbs sas : ℤ)
    (hang : |angle| < 1/100) :
    (∀ p₁ p₂ : ℚ,
      apply_perspective F imgW imgH angle cw ch p₁ ss spacing mode
          side_blur side_alpha curve blurCurve alphaCurve sss sbs sas =
        apply_perspective F imgW imgH angle cw ch p₂ ss spacing mode
          side_blur side_alpha curve blurCurve alphaCurve sss sbs sas)
    ∧ (∀ out x y,
        apply_perspective F imgW imgH angle cw ch perspective ss spacing mode
            side_blur side_alpha curve blurCurve alphaCurve sss sbs sas =
          (some out, x, y) →
        out.warped = false ∧ out.hInset = 0 ∧ out.vInset = 0
        ∧ x = pyInt (((cw : ℚ) -
            pyInt ((imgW : ℚ) * visualScale F ss (max 0 (|angle| - (sss - 1))) curve)) / 2)
        ∧ y = pyInt (((ch : ℚ) -
            pyInt ((imgH : ℚ) * visualScale F ss (max 0 (|angle| - (sss - 1))) curve)) / 2)) := by
  constructor
  · intro p₁ p₂
    unfold apply_perspective
    by_cases hd : pyInt ((imgW : ℚ) * visualScale F ss (max 0 (|angle| - (sss - 1))) curve) ≤ 0 ∨
        pyInt ((imgH : ℚ) * visualScale F ss (max 0 (|angle| - (sss - 1))) curve) ≤ 0
    · simp only [if_pos hd]
    · simp only [if_neg hd, if_pos hang]
  · intro out x y heq
    unfold apply_perspective at heq
    by_cases hd : pyInt ((imgW : ℚ) * visualScale F ss (max 0 (|angle| - (sss - 1))) curve) ≤ 0 ∨
        pyInt ((imgH : ℚ) * visualScale F ss (max 0 (|angle| - (sss - 1))) curve) ≤ 0
    · simp only [if_pos hd] at heq
      simp [Prod.ext_iff] at heq
    · simp only [if_neg hd, if_pos hang] at heq
      rw [Prod.ext_iff] at heq
      obtain ⟨h1, heq2⟩ := heq
      rw [Prod.ext_iff] at heq2
      obtain ⟨h2, h3⟩ := heq2
      have hout := (Option.some.inj h1).symm
      subst hout
      exact ⟨rfl, rfl, rfl, h2.symm, h3.symm⟩

/-- Witness for C6 at `angle = 1/256`: the result with `perspective = 3/10`
equals the result with `perspective = 9/10`. -/
theorem near_center_exemption_witness :
    apply_perspective ratFuns 1024 512 (1/256) 2000 1000 (3/10) (1/2) (7/20)
        "arc" 0 1 "linear" "linear" "exponential" 1 1 1 =
      apply_perspective ratFuns 1024 512 (1/256) 2000 1000 (9/10) (1/2) (7/20)
        "arc" 0 1 "linear" "linear" "exponential" 1 1 1 :=
  (near_center_exemption ratFuns 1024 512 (1/256) 2000 1000 (3/10) (1/2) (7/20)
    0 1 "arc" "linear" "linear" "exponential" 1 1 1
    (by rw [abs_of_pos] <;> norm_num)).1 (3/10) (9/10)

/-- C7 counterexample: with `demoConfig` (three visible slots), three
images, center index 1 and offset 0, the depths are 1, 0, 1, so the
compositing order cannot be *strictly* descending in depth: two elements
share depth 1. -/
theorem depth_order_not_strict :
    ¬ ((sortedRender demoConfig 3 1 0).map RenderEntry.depth).Chain' (· > ·) := by
  intro hch
  have hperm : ((sortedRender demoConfig 3 1 0).map RenderEntry.depth).Perm
      ([1, 0, 1] : List ℚ) := by
    unfold sortedRender
    rw [to_render_demo]
    have h1 := (List.mergeSort_perm
      ([⟨1, -1, 0⟩, ⟨0, 0, 1⟩, ⟨1, 1, 2⟩] : List RenderEntry)
      (fun a b => decide (b.depth ≤ a.depth))).map RenderEntry.depth
    simpa using h1
  have hpw : ((sortedRender demoConfig 3 1 0).map RenderEntry.depth).Pairwise (· > ·) :=
    List.chain'_iff_pairwise.mp hch
  have hnd : ((sortedRender demoConfig 3 1 0).map RenderEntry.depth).Nodup :=
    hpw.imp ne_of_gt
  have : ([1, 0, 1] : List ℚ).Nodup := hperm.nodup_iff.mp hnd
  simp at this

/-- C7 (amended): every visible element of `render_frame` is assigned
depth `|i − offset|` (`i` its signed slot offset from the center index),
and the composite order is the stable sort of the visible set into
*non-increasing* (descending, with ties possible) depth order — a
permutation of the visible set whose last element (the one composited
last, hence on top) has minimal depth. -/
theorem render_depth_order (cfg : RenderConfig) (n : ℕ) (c : ℤ) (off : ℚ) :
    (∀ e ∈ to_render cfg n c off,
      e.depth = |e.position| ∧
      ∃ i : ℤ, -(cfg.visible_range : ℤ) ≤ i ∧ i ≤ (cfg.visible_range : ℤ) ∧
        e.position = (i : ℚ) - off ∧ e.depth = |(i : ℚ) - off| ∧
        e.imgIdx = (if cfg.repeatWrap then (c + i) % (n : ℤ) else c + i))
    ∧ (sortedRender cfg n c off).Perm (to_render cfg n c off)
    ∧ (sortedRender cfg n c off).Pairwise (fun a b => b.depth ≤ a.depth)
    ∧ ∀ h : sortedRender cfg n c off ≠ [], ∀ e ∈ sortedRender cfg n c off,
        ((sortedRender cfg n c off).getLast h).depth ≤ e.depth := by
  have hsorted : (sortedRender cfg n c off).Pairwise (fun a b => b.depth ≤ a.depth) := by
    have := @List.sorted_mergeSort RenderEntry
      (fun (a b : RenderEntry) => decide (b.depth ≤ a.depth))
      (fun a b c hab hbc => by
        simp only [decide_eq_true_iff] at hab hbc ⊢
        exact le_trans hbc hab)
      (fun a b => by
        simp only [Bool.or_eq_true, decide_eq_true_iff]
        exact le_total b.depth a.depth)
      (to_render cfg n c off)
    exact this.imp (fun hab => by simpa using hab)
  refine ⟨?_, List.mergeSort_perm _ _, hsorted,
    fun h e he => pairwise_getLast_min hsorted h e he⟩
  intro e he
  rw [mem_to_render_iff] at he
  obtain ⟨i, h1, h2, h3, h4, rfl⟩ := he
  exact ⟨rfl, i, h1, h2, rfl, rfl, rfl⟩

/-- C8: an input whose computed scaled dimensions are non-positive makes
`apply_perspective` return `none` (no image, no error); `render_frame`
then emits no composite operation for that image while still compositing
every visible image whose transform succeeds. -/
theorem degenerate_omitted (F : RealFuns) (cfg : RenderConfig)
    (imgs : List (ℕ × ℕ)) (c : ℤ) (off : ℚ) (hrep : cfg.repeatWrap = false) :
    (∀ (imgW imgH : ℕ) (angle : ℚ) (cw ch : ℕ) (p ss sp sb sa : ℚ)
        (mode c1 c2 c3 : String) (s1 s2 s3 : ℤ),
      pyInt ((imgW : ℚ) * visualScale F ss (max 0 (|angle| - (s1 - 1))) c1) ≤ 0 ∨
        pyInt ((imgH : ℚ) * visualScale F ss (max 0 (|angle| - (s1 - 1))) c1) ≤ 0 →
      apply_perspective F imgW imgH angle cw ch p ss sp mode sb sa c1 c2 c3 s1 s2 s3 =
        (none, 0, 0))
    ∧ (∀ e ∈ sortedRender cfg imgs.length c off,
        (transformFor F cfg imgs e).1 = none →
        ∀ op ∈ render_ops F cfg imgs c off, op.imgIdx ≠ e.imgIdx)
    ∧ (∀ e ∈ sortedRender cfg imgs.length c off,
        ∀ out x y, transformFor F cfg imgs e = (some out, x, y) →
        ∃ yPos, (⟨e.imgIdx, false, x, yPos, out.width, out.height⟩ : CompositeOp) ∈
          render_ops F cfg imgs c off) := by
  refine ⟨?_, ?_, ?_⟩
  · intro imgW imgH angle cw ch p ss sp sb sa mode c1 c2 c3 s1 s2 s3 hdeg
    unfold apply_perspective
    rw [if_pos hdeg]
  · intro e he hnone op hop
    intro hidx
    rw [render_ops, List.mem_flatMap] at hop
    obtain ⟨e2, he2, hope2⟩ := hop
    have hii : op.imgIdx = e2.imgIdx := opsForEntry_imgIdx F cfg imgs e2 op hope2
    have hmem1 : e ∈ to_render cfg imgs.length c off :=
      (List.mergeSort_perm _ _).subset he
    have hmem2 : e2 ∈ to_render cfg imgs.length c off :=
      (List.mergeSort_perm _ _).subset he2
    have : e2 = e := to_render_imgIdx_inj cfg imgs.length c off hrep hmem2 hmem1
      (by rw [← hii, hidx])
    subst this
    rcases htr : transformFor F cfg imgs e2 with ⟨t, x, y⟩
    rw [htr] at hnone
    cases t with
    | some out => simp at hnone
    | none =>
      unfold opsForEntry at hope2
      rw [htr] at hope2
      simp at hope2
  · intro e he out x y htr
    obtain ⟨yP, rest, hlist⟩ : ∃ yPos rest,
        opsForEntry F cfg imgs e =
          (⟨e.imgIdx, false, x, yPos, out.width, out.height⟩ : CompositeOp) :: rest := by
      unfold opsForEntry
      rw [htr]
      by_cases hrefl : cfg.reflection > 0
      · simp only [if_pos hrefl]
        rcases hr : create_reflection F (imgs.getD e.imgIdx.toNat (0, 0)).1
            (imgs.getD e.imgIdx.toNat (0, 0)).2 e.position cfg.width cfg.height
            cfg.reflection cfg.perspective cfg.side_scale cfg.spacing cfg.mode
            cfg.reflection_length cfg.side_blur cfg.side_alpha
            cfg.side_scale_curve cfg.side_blur_curve cfg.side_alpha_curve
            cfg.side_scale_start cfg.side_blur_start cfg.side_alpha_start with ⟨r, rx, ry⟩
        cases r with
        | none => exact ⟨_, _, rfl⟩
        | some rwh =>
          rcases rwh with ⟨rw1, rh1⟩
          exact ⟨_, _, rfl⟩
      · simp only [if_neg hrefl]
        exact ⟨_, _, rfl⟩
    refine ⟨yP, ?_⟩
    unfold render_ops
    exact List.mem_flatMap.mpr ⟨e, he, by rw [hlist]; exact List.mem_cons_self _ _⟩

/-- Witness for C8: with `demoConfig`, three images of which the middle
one has degenerate (0×0) dimensions, center 1, offset 0, no composite
operation of the rendered frame refers to image 1. -/
theorem degenerate_omitted_witness :
    demoConfig.repeatWrap = false ∧
    (∀ op ∈ render_ops ratFuns demoConfig [(100, 60), (0, 0), (80, 40)] 1 0,
      op.imgIdx ≠ 1) := by
  constructor
  · rfl
  · intro op hop
    have hmem : (⟨0, 0, 1⟩ : RenderEntry) ∈
        sortedRender demoConfig ([(100, 60), (0, 0), (80, 40)] : List (ℕ × ℕ)).length 1 0 := by
      unfold sortedRender
      have h3 : (⟨0, 0, 1⟩ : RenderEntry) ∈ to_render demoConfig 3 1 0 := by
        rw [to_render_demo]; simp
      exact (List.mergeSort_perm _ _).mem_iff.mpr h3
    have hnone : (transformFor ratFuns demoConfig [(100, 60), (0, 0), (80, 40)] ⟨0, 0, 1⟩).1
        = none := by
      unfold transformFor apply_perspective
      norm_num [pyInt]
    exact (degenerate_omitted ratFuns demoConfig [(100, 60), (0, 0), (80, 40)] 1 0 rfl).2.1
      ⟨0, 0, 1⟩ hmem hnone op hop

/-- C9: easing lookup and decay/increase curve lookup are total functions
of the name; an unrecognized easing name resolves to cubic ease-in-out, an
unrecognized decay-curve name makes `apply_decay_curve` behave as
exponential decay, and an unrecognized increase-curve name makes
`apply_increase_curve` behave as linear increase — no lookup can fail. -/
theorem curve_lookups_default (name : String)
    (he : name ∉ EASING_FUNCTIONS.map Prod.fst)
    (hd : name ∉ DECAY_CURVE_FUNCTIONS.map Prod.fst)
    (hi : name ∉ INCREASE_CURVE_FUNCTIONS.map Prod.fst) :
    get_easing_function name = EasingTag.easeInOutCubic
    ∧ (∀ F v a, apply_decay_curve F v a name = decay_exponential F v a)
    ∧ (∀ F v a, apply_increase_curve F v a name = increase_linear v a) := by
  have hE := lookup_eq_none_of_not_mem he
  have hD := lookup_eq_none_of_not_mem hd
  have hI := lookup_eq_none_of_not_mem hi
  refine ⟨?_, fun F v a => ?_, fun F v a => ?_⟩
  · simp [get_easing_function, hE]
  · simp [apply_decay_curve, hD, evalDecay]
  · simp [apply_increase_curve, hI, evalIncrease]

/-- Witness for C9 at the unknown name `"bogus"`. -/
theorem curve_lookups_default_witness :
    get_easing_function "bogus" = EasingTag.easeInOutCubic
    ∧ (∀ F v a, apply_decay_curve F v a "bogus" = decay_exponential F v a)
    ∧ (∀ F v a, apply_increase_curve F v a "bogus" = increase_linear v a) :=
  curve_lookups_default "bogus" (by simp [EASING_FUNCTIONS])
    (by simp [DECAY_CURVE_FUNCTIONS]) (by simp [INCREASE_CURVE_FUNCTIONS])

/-- C10: when the configured `side_scale` is `≤ 0`, `apply_perspective`
uses a visual scale factor of `1.0` and a position scale of `1.0` (side
images are not shrunk at all), and `decay_exponential value angle = 1.0`
for every `value ≤ 0`. -/
theorem side_scale_nonpos_unit (F : RealFuns) (ss abs_angle eff : ℚ)
    (curve : String) (hss : ss ≤ 0) :
    positionScale F ss abs_angle = 1
    ∧ visualScale F ss eff curve = 1
    ∧ (∀ v, v ≤ 0 → ∀ angle, decay_exponential F v angle = 1) := by
  refine ⟨?_, ?_, fun v hv angle => ?_⟩
  · unfold positionScale
    rw [if_neg (not_lt.mpr hss)]
  · unfold visualScale
    rw [if_neg (not_lt.mpr hss)]
  · unfold decay_exponential
    rw [if_neg (not_lt.mpr hv)]

/-- Witness for C10 at `side_scale = -1`, angle `2`, effective angle `3`,
the `"linear"` curve and the concrete function bundle. -/
theorem side_scale_nonpos_unit_witness :
    positionScale ratFuns (-1) 2 = 1
    ∧ visualScale ratFuns (-1) 3 "linear" = 1
    ∧ (∀ v, v ≤ 0 → ∀ angle, decay_exponential ratFuns v angle = 1) :=
  side_scale_nonpos_unit ratFuns (-1) 2 3 "linear" (by norm_num)

end Coverflow
